import Mathlib

/-!
Shallow embedding of `memory_simulator.c`, a demand-paged virtual-memory
simulator with a 16-entry FIFO translation lookaside buffer (TLB), a
256-entry page table, and a physical memory of 256 frames of 256 bytes.

The C program's global state (page table, physical memory, TLB, statistics
counters) is collected in one structure `SimState`.  Arrays are embedded as
functions (C global arrays are zero-initialized, so the initial functions
are constant); `int` values that are always non-negative in the program
(page numbers, frame numbers, counters) are embedded as `Nat`, while the
page table keeps `Int` values because `-1` is its "unmapped" sentinel, and
`search_TLB` returns `Int` because `-1` is its "not found" sentinel, as in
the source.  The backing-store file (`disk.bin`) is embedded as a function
`disk : Nat → Int` from byte position to byte value (bytes are C `char`,
printed as signed integers, hence `Int`).

In the C source, `check_page_table` keeps the fault count in a function
static variable and `main` re-reads it on every TLB miss; since the static
counter changes only inside `check_page_table`, `main`'s copy always equals
it after each loop iteration, so it is embedded as one counter field.
-/

namespace MemSim

def FRAME_SIZE_BYTES : Nat := 256

def NUM_FRAMES : Nat := 256

def NUM_TLB_ENTRIES : Nat := 16

def PAGE_SIZE_BYTES : Nat := 256

/-- The whole mutable state of the simulator: the page table (256 entries,
`-1` meaning unmapped), physical memory as frame → offset → byte,
`highest_open_frame`, the TLB's two parallel arrays plus `num_filled` and
`head_position`, and the three statistics counters. -/
structure SimState where
  page_table : Nat → Int
  mem : Nat → Nat → Int
  highest_open_frame : Nat
  tlb_page_numbers : Nat → Nat
  tlb_frame_numbers : Nat → Nat
  num_filled : Nat
  head_position : Nat
  num_TLB_hits : Nat
  num_Pg_faults : Nat
  num_addresses_processed : Nat

/-- State after `initialize_TLB`, `initialize_page_table` and
`initialize_memory`: page table all `-1`, counters zero; the C arrays are
globals and hence zero-initialized. -/
def initial_state : SimState where
  page_table := fun _ => -1
  mem := fun _ _ => 0
  highest_open_frame := 0
  tlb_page_numbers := fun _ => 0
  tlb_frame_numbers := fun _ => 0
  num_filled := 0
  head_position := 0
  num_TLB_hits := 0
  num_Pg_faults := 0
  num_addresses_processed := 0

/-- C: `return virtual_address & OFFSET_MASK;` with `OFFSET_MASK = 0xFF`. -/
def get_offset (virtual_address : Nat) : Nat :=
  virtual_address &&& 0xFF

/-- C: `return (virtual_address & PAGE_NUM_MASK) >> PAGE_NUM_SHIFT;` with
`PAGE_NUM_MASK = 0xFF00` and `PAGE_NUM_SHIFT = 8`. -/
def get_page_number (virtual_address : Nat) : Nat :=
  (virtual_address &&& 0xFF00) >>> 8

/-- The loop of C `search_TLB`, scanning slots `(head_position + index) %
NUM_TLB_ENTRIES` for `index` running over `fuel` further values; returns the
frame number of the first slot holding `page_number`, `-1` if none. -/
def search_TLB_from (s : SimState) (page_number index fuel : Nat) : Int :=
  match fuel with
  | 0 => -1
  | fuel' + 1 =>
    if s.tlb_page_numbers ((s.head_position + index) % NUM_TLB_ENTRIES) = page_number then
      (s.tlb_frame_numbers ((s.head_position + index) % NUM_TLB_ENTRIES) : Int)
    else
      search_TLB_from s page_number (index + 1) fuel'

/-- C `search_TLB`: scan the `num_filled` filled slots in FIFO order starting
at `head_position`; return the frame number, or `-1` on a miss. -/
def search_TLB (s : SimState) (page_number : Nat) : Int :=
  search_TLB_from s page_number 0 s.num_filled

/-- C `update_TLB`: if the TLB is full, overwrite the slot at
`head_position` and advance the head modulo `NUM_TLB_ENTRIES` (FIFO
replacement); otherwise append at slot `num_filled` and increment
`num_filled`. -/
def update_TLB (s : SimState) (page_number frame_number : Nat) : SimState :=
  if s.num_filled = NUM_TLB_ENTRIES then
    { s with
      tlb_page_numbers := fun i => if i = s.head_position then page_number else s.tlb_page_numbers i
      tlb_frame_numbers := fun i => if i = s.head_position then frame_number else s.tlb_frame_numbers i
      head_position := (s.head_position + 1) % NUM_TLB_ENTRIES }
  else
    { s with
      tlb_page_numbers := fun i => if i = s.num_filled then page_number else s.tlb_page_numbers i
      tlb_frame_numbers := fun i => if i = s.num_filled then frame_number else s.tlb_frame_numbers i
      num_filled := s.num_filled + 1 }

/-- C `update_page_table`: `page_table[page_number] = frame_number;`. -/
def update_page_table (s : SimState) (page_number frame_number : Nat) : SimState :=
  { s with
    page_table := fun q => if q = page_number then (frame_number : Int) else s.page_table q }

/-- C `load_page_disk_to_memory`: seek to `page_number * PAGE_SIZE_BYTES`
in the disk file, read one page, copy its `PAGE_SIZE_BYTES` bytes into the
frame at `highest_open_frame`, advance `highest_open_frame`, and return the
frame number used. -/
def load_page_disk_to_memory (disk : Nat → Int) (s : SimState) (page_number : Nat) :
    SimState × Nat :=
  ({ s with
     mem := fun fr i =>
       if fr = s.highest_open_frame ∧ i < PAGE_SIZE_BYTES then
         disk (page_number * PAGE_SIZE_BYTES + i)
       else
         s.mem fr i
     highest_open_frame := s.highest_open_frame + 1 },
   s.highest_open_frame)

/-- C `check_page_table`: on a page-table miss (`page_table[page_number] ==
-1`) count a page fault, load the page from disk, record the new mapping in
the page table; in both cases finish with `update_TLB`. -/
def check_page_table (disk : Nat → Int) (s : SimState) (page_number : Nat) : SimState :=
  if s.page_table page_number = -1 then
    let s1 := { s with num_Pg_faults := s.num_Pg_faults + 1 }
    let r := load_page_disk_to_memory disk s1 page_number
    let s3 := update_page_table r.1 page_number r.2
    update_TLB s3 page_number r.2
  else
    update_TLB s page_number (s.page_table page_number).toNat

/-- What one iteration of `main`'s loop produces besides the new state: the
resolved frame number (the value of `main`'s `frame_number` variable after
the TLB lookups), the printed physical address and the printed byte value. -/
structure TranslationResult where
  state : SimState
  frame_number : Int
  physical_address : Int
  value : Int

/-- One iteration of the loop in C `main`: count the address, decompose it,
probe the TLB; on a hit count it, on a miss run `check_page_table` and
re-probe the TLB; then form `physical_address = frame_number *
FRAME_SIZE_BYTES + offset` and read `memory[frame_number][offset]`. -/
def process_address (disk : Nat → Int) (s : SimState) (virtual_address : Nat) :
    TranslationResult :=
  let s0 := { s with num_addresses_processed := s.num_addresses_processed + 1 }
  let page_number := get_page_number virtual_address
  let offset := get_offset virtual_address
  let probe := search_TLB s0 page_number
  let step :=
    if probe = -1 then
      let s2 := check_page_table disk s0 page_number
      (s2, search_TLB s2 page_number)
    else
      ({ s0 with num_TLB_hits := s0.num_TLB_hits + 1 }, probe)
  { state := step.1
    frame_number := step.2
    physical_address := step.2 * (FRAME_SIZE_BYTES : Int) + (offset : Int)
    value := step.1.mem step.2.toNat offset }

/-- Run the whole `main` loop over a list of virtual addresses. -/
def run (disk : Nat → Int) (s : SimState) (addrs : List Nat) : SimState :=
  match addrs with
  | [] => s
  | a :: rest => run disk (process_address disk s a).state rest

/-- Number of addresses of a run that are resolved through the page-table
path (`check_page_table`), i.e. whose TLB probe misses.  The C program does
not keep this count; it is defined here to state the accounting identity
`hits + table-path = processed`. -/
def table_path_count (disk : Nat → Int) (s : SimState) (addrs : List Nat) : Nat :=
  match addrs with
  | [] => 0
  | a :: rest =>
    let s0 := { s with num_addresses_processed := s.num_addresses_processed + 1 }
    (if search_TLB s0 (get_page_number a) = -1 then 1 else 0) +
      table_path_count disk (process_address disk s a).state rest

/-- State after the fault branch of `check_page_table` just before its final
`update_TLB`: fault counted, page loaded from disk into the frame at
`highest_open_frame`, frame counter advanced, page table updated. -/
def faulted (disk : Nat → Int) (s : SimState) (page_number : Nat) : SimState :=
  { s with
    num_Pg_faults := s.num_Pg_faults + 1
    mem := fun fr i =>
      if fr = s.highest_open_frame ∧ i < PAGE_SIZE_BYTES then
        disk (page_number * PAGE_SIZE_BYTES + i)
      else
        s.mem fr i
    highest_open_frame := s.highest_open_frame + 1
    page_table := fun q =>
      if q = page_number then (s.highest_open_frame : Int) else s.page_table q }

/-- All-zero backing store, used to instantiate concrete runs. -/
def disk0 : Nat → Int := fun _ => 0

/-- Seventeen addresses on the seventeen distinct pages 0, 1, …, 16 (address
`i * 256` has page number `i`), the FIFO-eviction scenario stream. -/
def scenario_17 : List Nat := (List.range 17).map (fun i => i * 256)

/-- Slot `slot` of the TLB arrays currently holds a live entry: it is one of
the `num_filled` slots that `search_TLB` scans. -/
def IsHeld (s : SimState) (slot : Nat) : Prop :=
  slot < NUM_TLB_ENTRIES ∧ (s.num_filled = NUM_TLB_ENTRIES ∨ slot < s.num_filled)

/-- Structural invariant of every reachable simulator state. -/
structure Inv (s : SimState) : Prop where
  filled_le : s.num_filled ≤ NUM_TLB_ENTRIES
  head_eq_zero : s.num_filled < NUM_TLB_ENTRIES → s.head_position = 0
  head_lt : s.head_position < NUM_TLB_ENTRIES
  tlb_pt : ∀ slot, IsHeld s slot →
    s.page_table (s.tlb_page_numbers slot) = (s.tlb_frame_numbers slot : Int)
  tlb_nodup : ∀ a b, IsHeld s a → IsHeld s b → a ≠ b →
    s.tlb_page_numbers a ≠ s.tlb_page_numbers b
  pt_range : ∀ p, s.page_table p = -1 ∨
    ∃ f : Nat, s.page_table p = (f : Int) ∧ f < s.highest_open_frame
  hof_card : s.highest_open_frame =
    ((Finset.range 256).filter (fun p => s.page_table p ≠ -1)).card
  pt_big : ∀ p, 256 ≤ p → s.page_table p = -1
  hof_faults : s.highest_open_frame = s.num_Pg_faults

theorem get_offset_lt (a : Nat) : get_offset a < 256 := by
  have h : a &&& 0xFF ≤ 0xFF := Nat.and_le_right
  unfold get_offset
  omega

theorem get_page_number_lt (a : Nat) : get_page_number a < 256 := by
  have h1 : a &&& 0xFF00 ≤ 0xFF00 := Nat.and_le_right
  unfold get_page_number
  rw [Nat.shiftRight_eq_div_pow]
  have h2 : (a &&& 0xFF00) / 2 ^ 8 ≤ 0xFF00 / 2 ^ 8 := Nat.div_le_div_right h1
  norm_num at h2 ⊢
  omega

theorem search_TLB_from_congr (s t : SimState)
    (hp : s.tlb_page_numbers = t.tlb_page_numbers)
    (hf : s.tlb_frame_numbers = t.tlb_frame_numbers)
    (hh : s.head_position = t.head_position)
    (page_number index fuel : Nat) :
    search_TLB_from s page_number index fuel = search_TLB_from t page_number index fuel := by
  induction fuel generalizing index with
  | zero => rfl
  | succ n ih => simp only [search_TLB_from, hp, hf, hh, ih]

theorem search_TLB_congr (s t : SimState)
    (hp : s.tlb_page_numbers = t.tlb_page_numbers)
    (hf : s.tlb_frame_numbers = t.tlb_frame_numbers)
    (hh : s.head_position = t.head_position)
    (hn : s.num_filled = t.num_filled)
    (page_number : Nat) :
    search_TLB s page_number = search_TLB t page_number := by
  unfold search_TLB
  rw [hn, search_TLB_from_congr s t hp hf hh]

theorem search_TLB_from_eq_neg_one_iff (s : SimState) (p index fuel : Nat) :
    search_TLB_from s p index fuel = -1 ↔
      ∀ d, d < fuel →
        s.tlb_page_numbers ((s.head_position + (index + d)) % NUM_TLB_ENTRIES) ≠ p := by
  induction fuel generalizing index with
  | zero => simp [search_TLB_from]
  | succ n ih =>
    simp only [search_TLB_from]
    split
    · rename_i hcond
      constructor
      · intro hc
        exfalso
        omega
      · intro H
        exfalso
        exact H 0 (by omega) (by simpa using hcond)
    · rename_i hcond
      rw [ih]
      constructor
      · intro H d _
        match d with
        | 0 => simpa using hcond
        | d' + 1 =>
          have he : index + (d' + 1) = index + 1 + d' := by omega
          rw [he]
          exact H d' (by omega)
      · intro H d hd
        have he : index + 1 + d = index + (d + 1) := by omega
        rw [he]
        exact H (d + 1) (by omega)

theorem search_TLB_from_found (s : SimState) (p index fuel : Nat)
    (h : search_TLB_from s p index fuel ≠ -1) :
    ∃ d, d < fuel ∧
      s.tlb_page_numbers ((s.head_position + (index + d)) % NUM_TLB_ENTRIES) = p ∧
      search_TLB_from s p index fuel =
        (s.tlb_frame_numbers ((s.head_position + (index + d)) % NUM_TLB_ENTRIES) : Int) := by
  induction fuel generalizing index with
  | zero => simp [search_TLB_from] at h
  | succ n ih =>
    by_cases hcond :
        s.tlb_page_numbers ((s.head_position + index) % NUM_TLB_ENTRIES) = p
    · refine ⟨0, by omega, by simpa using hcond, ?_⟩
      simp [search_TLB_from, hcond]
    · have h' : search_TLB_from s p (index + 1) n ≠ -1 := by
        rw [search_TLB_from, if_neg hcond] at h
        exact h
      obtain ⟨d, hd, h1, h2⟩ := ih (index + 1) h'
      have he : index + (d + 1) = index + 1 + d := by omega
      refine ⟨d + 1, by omega, by rw [he]; exact h1, ?_⟩
      rw [search_TLB_from, if_neg hcond, he]
      exact h2

theorem search_TLB_eq_neg_one_iff (s : SimState) (p : Nat) :
    search_TLB s p = -1 ↔
      ∀ i, i < s.num_filled →
        s.tlb_page_numbers ((s.head_position + i) % NUM_TLB_ENTRIES) ≠ p := by
  unfold search_TLB
  rw [search_TLB_from_eq_neg_one_iff]
  simp

theorem search_TLB_found (s : SimState) (p : Nat) (h : search_TLB s p ≠ -1) :
    ∃ i, i < s.num_filled ∧
      s.tlb_page_numbers ((s.head_position + i) % NUM_TLB_ENTRIES) = p ∧
      search_TLB s p =
        (s.tlb_frame_numbers ((s.head_position + i) % NUM_TLB_ENTRIES) : Int) := by
  have h' := search_TLB_from_found s p 0 s.num_filled h
  simpa [search_TLB] using h'

theorem isHeld_iff_lt (s : SimState) (h : s.num_filled ≤ NUM_TLB_ENTRIES) (slot : Nat) :
    IsHeld s slot ↔ slot < s.num_filled := by
  simp only [IsHeld, NUM_TLB_ENTRIES] at *
  omega

theorem scan_slot_iff (s : SimState)
    (h1 : s.num_filled ≤ NUM_TLB_ENTRIES)
    (h2 : s.num_filled < NUM_TLB_ENTRIES → s.head_position = 0)
    (h3 : s.head_position < NUM_TLB_ENTRIES)
    (slot : Nat) :
    (∃ i, i < s.num_filled ∧ (s.head_position + i) % NUM_TLB_ENTRIES = slot) ↔
      IsHeld s slot := by
  simp only [NUM_TLB_ENTRIES, IsHeld] at *
  constructor
  · rintro ⟨i, hi, rfl⟩
    constructor
    · omega
    · by_cases hfull : s.num_filled = 16
      · exact Or.inl hfull
      · have h0 : s.head_position = 0 := h2 (by omega)
        rw [h0]
        omega
  · rintro ⟨hs, hfl⟩
    by_cases hfull : s.num_filled = 16
    · refine ⟨(slot + 16 - s.head_position) % 16, by omega, by omega⟩
    · have h0 : s.head_position = 0 := h2 (by omega)
      refine ⟨slot, by omega, by omega⟩

@[simp] theorem update_TLB_page_table (s : SimState) (p f : Nat) :
    (update_TLB s p f).page_table = s.page_table := by
  unfold update_TLB
  split <;> rfl

@[simp] theorem update_TLB_mem (s : SimState) (p f : Nat) :
    (update_TLB s p f).mem = s.mem := by
  unfold update_TLB
  split <;> rfl

@[simp] theorem update_TLB_hof (s : SimState) (p f : Nat) :
    (update_TLB s p f).highest_open_frame = s.highest_open_frame := by
  unfold update_TLB
  split <;> rfl

@[simp] theorem update_TLB_hits (s : SimState) (p f : Nat) :
    (update_TLB s p f).num_TLB_hits = s.num_TLB_hits := by
  unfold update_TLB
  split <;> rfl

@[simp] theorem update_TLB_faults (s : SimState) (p f : Nat) :
    (update_TLB s p f).num_Pg_faults = s.num_Pg_faults := by
  unfold update_TLB
  split <;> rfl

@[simp] theorem update_TLB_processed (s : SimState) (p f : Nat) :
    (update_TLB s p f).num_addresses_processed = s.num_addresses_processed := by
  unfold update_TLB
  split <;> rfl

theorem update_TLB_full (s : SimState) (p f : Nat) (h : s.num_filled = NUM_TLB_ENTRIES) :
    (update_TLB s p f).tlb_page_numbers =
        (fun i => if i = s.head_position then p else s.tlb_page_numbers i) ∧
      (update_TLB s p f).tlb_frame_numbers =
        (fun i => if i = s.head_position then f else s.tlb_frame_numbers i) ∧
      (update_TLB s p f).num_filled = s.num_filled ∧
      (update_TLB s p f).head_position = (s.head_position + 1) % NUM_TLB_ENTRIES := by
  unfold update_TLB
  rw [if_pos h]
  exact ⟨rfl, rfl, rfl, rfl⟩

theorem update_TLB_not_full (s : SimState) (p f : Nat) (h : s.num_filled ≠ NUM_TLB_ENTRIES) :
    (update_TLB s p f).tlb_page_numbers =
        (fun i => if i = s.num_filled then p else s.tlb_page_numbers i) ∧
      (update_TLB s p f).tlb_frame_numbers =
        (fun i => if i = s.num_filled then f else s.tlb_frame_numbers i) ∧
      (update_TLB s p f).num_filled = s.num_filled + 1 ∧
      (update_TLB s p f).head_position = s.head_position := by
  unfold update_TLB
  rw [if_neg h]
  exact ⟨rfl, rfl, rfl, rfl⟩

theorem check_page_table_eq_hit (disk : Nat → Int) (s : SimState) (p : Nat)
    (h : ¬s.page_table p = -1) :
    check_page_table disk s p = update_TLB s p (s.page_table p).toNat := by
  unfold check_page_table
  rw [if_neg h]

theorem check_page_table_eq_miss (disk : Nat → Int) (s : SimState) (p : Nat)
    (h : s.page_table p = -1) :
    check_page_table disk s p = update_TLB (faulted disk s p) p s.highest_open_frame := by
  unfold check_page_table
  rw [if_pos h]
  rfl

theorem notInTLB_of_search_miss (s : SimState)
    (h1 : s.num_filled ≤ NUM_TLB_ENTRIES)
    (h2 : s.num_filled < NUM_TLB_ENTRIES → s.head_position = 0)
    (h3 : s.head_position < NUM_TLB_ENTRIES)
    (p : Nat) (hmiss : search_TLB s p = -1) :
    ∀ slot, IsHeld s slot → s.tlb_page_numbers slot ≠ p := by
  intro slot hslot
  obtain ⟨i, hi, hslot_eq⟩ := (scan_slot_iff s h1 h2 h3 slot).2 hslot
  rw [← hslot_eq]
  exact (search_TLB_eq_neg_one_iff s p).1 hmiss i hi

theorem search_miss_of_notInTLB (s : SimState)
    (h1 : s.num_filled ≤ NUM_TLB_ENTRIES)
    (h2 : s.num_filled < NUM_TLB_ENTRIES → s.head_position = 0)
    (h3 : s.head_position < NUM_TLB_ENTRIES)
    (p : Nat) (habs : ∀ slot, IsHeld s slot → s.tlb_page_numbers slot ≠ p) :
    search_TLB s p = -1 := by
  rw [search_TLB_eq_neg_one_iff]
  intro i hi
  exact habs _ ((scan_slot_iff s h1 h2 h3 _).1 ⟨i, hi, rfl⟩)

theorem search_TLB_found_slot (s : SimState) (hInv : Inv s) (p : Nat)
    (h : search_TLB s p ≠ -1) :
    ∃ slot, IsHeld s slot ∧ s.tlb_page_numbers slot = p ∧
      search_TLB s p = (s.tlb_frame_numbers slot : Int) := by
  obtain ⟨i, hi, h1, h2⟩ := search_TLB_found s p h
  exact ⟨(s.head_position + i) % NUM_TLB_ENTRIES,
    (scan_slot_iff s hInv.filled_le hInv.head_eq_zero hInv.head_lt _).1 ⟨i, hi, rfl⟩, h1, h2⟩

theorem search_TLB_consistent (s : SimState) (hInv : Inv s) (p : Nat)
    (h : search_TLB s p ≠ -1) :
    search_TLB s p = s.page_table p ∧
      ∃ f : Nat, search_TLB s p = (f : Int) ∧ f < s.highest_open_frame := by
  obtain ⟨slot, hheld, hpage, hframe⟩ := search_TLB_found_slot s hInv p h
  have hcons := hInv.tlb_pt slot hheld
  rw [hpage] at hcons
  refine ⟨by rw [hframe, hcons], ?_⟩
  rcases hInv.pt_range p with hnone | ⟨f, hf, hlt⟩
  · rw [hnone] at hcons
    exfalso
    omega
  · refine ⟨f, ?_, hlt⟩
    rw [hframe, ← hcons]
    exact hf

theorem update_TLB_Inv (s : SimState) (p f : Nat) (hInv : Inv s)
    (habs : ∀ slot, IsHeld s slot → s.tlb_page_numbers slot ≠ p)
    (hpt : s.page_table p = (f : Int)) :
    Inv (update_TLB s p f) := by
  by_cases hfull : s.num_filled = NUM_TLB_ENTRIES
  · obtain ⟨hpages, hframes, hfilled, hhead⟩ := update_TLB_full s p f hfull
    have hheld : ∀ slot, IsHeld (update_TLB s p f) slot ↔ IsHeld s slot := by
      intro slot
      simp only [IsHeld, hfilled]
    have hheld_s : ∀ slot, slot < NUM_TLB_ENTRIES → IsHeld s slot := by
      intro slot hs
      exact ⟨hs, Or.inl hfull⟩
    constructor
    · rw [hfilled]; exact hInv.filled_le
    · rw [hfilled]
      intro hlt
      exact absurd hfull (by omega)
    · rw [hhead]
      exact Nat.mod_lt _ (by decide)
    · intro slot hs
      rw [hheld] at hs
      rw [update_TLB_page_table, hpages, hframes]
      dsimp only
      by_cases hw : slot = s.head_position
      · rw [if_pos hw, if_pos hw]
        exact hpt
      · rw [if_neg hw, if_neg hw]
        exact hInv.tlb_pt slot hs
    · intro a b ha hb hne
      rw [hheld] at ha hb
      rw [hpages]
      dsimp only
      by_cases hwa : a = s.head_position <;> by_cases hwb : b = s.head_position
      · exact absurd (hwa.trans hwb.symm) hne
      · rw [if_pos hwa, if_neg hwb]
        exact (habs b hb).symm
      · rw [if_neg hwa, if_pos hwb]
        exact habs a ha
      · rw [if_neg hwa, if_neg hwb]
        exact hInv.tlb_nodup a b ha hb hne
    · rw [update_TLB_page_table, update_TLB_hof]
      exact hInv.pt_range
    · rw [update_TLB_page_table, update_TLB_hof]
      exact hInv.hof_card
    · rw [update_TLB_page_table]
      exact hInv.pt_big
    · rw [update_TLB_hof, update_TLB_faults]
      exact hInv.hof_faults
  · obtain ⟨hpages, hframes, hfilled, hhead⟩ := update_TLB_not_full s p f hfull
    have hlt : s.num_filled < NUM_TLB_ENTRIES := lt_of_le_of_ne hInv.filled_le hfull
    have hle' : (update_TLB s p f).num_filled ≤ NUM_TLB_ENTRIES := by
      rw [hfilled]; omega
    have hheld : ∀ slot, IsHeld (update_TLB s p f) slot ↔ slot < s.num_filled + 1 := by
      intro slot
      rw [isHeld_iff_lt _ hle', hfilled]
    have hheld_s : ∀ slot, slot < s.num_filled → IsHeld s slot := by
      intro slot hs
      exact (isHeld_iff_lt s hInv.filled_le slot).2 hs
    constructor
    · exact hle'
    · rw [hfilled, hhead]
      intro _
      exact hInv.head_eq_zero hlt
    · rw [hhead]
      exact hInv.head_lt
    · intro slot hs
      rw [hheld] at hs
      rw [update_TLB_page_table, hpages, hframes]
      dsimp only
      by_cases hw : slot = s.num_filled
      · rw [if_pos hw, if_pos hw]
        exact hpt
      · rw [if_neg hw, if_neg hw]
        exact hInv.tlb_pt slot (hheld_s slot (by omega))
    · intro a b ha hb hne
      rw [hheld] at ha hb
      rw [hpages]
      dsimp only
      by_cases hwa : a = s.num_filled <;> by_cases hwb : b = s.num_filled
      · exact absurd (hwa.trans hwb.symm) hne
      · rw [if_pos hwa, if_neg hwb]
        exact (habs b (hheld_s b (by omega))).symm
      · rw [if_neg hwa, if_pos hwb]
        exact habs a (hheld_s a (by omega))
      · rw [if_neg hwa, if_neg hwb]
        exact hInv.tlb_nodup a b (hheld_s a (by omega)) (hheld_s b (by omega)) hne
    · rw [update_TLB_page_table, update_TLB_hof]
      exact hInv.pt_range
    · rw [update_TLB_page_table, update_TLB_hof]
      exact hInv.hof_card
    · rw [update_TLB_page_table]
      exact hInv.pt_big
    · rw [update_TLB_hof, update_TLB_faults]
      exact hInv.hof_faults

theorem faulted_page_table (disk : Nat → Int) (s : SimState) (p : Nat) :
    (faulted disk s p).page_table =
      fun q => if q = p then (s.highest_open_frame : Int) else s.page_table q := rfl

@[simp] theorem faulted_tlb_page_numbers (disk : Nat → Int) (s : SimState) (p : Nat) :
    (faulted disk s p).tlb_page_numbers = s.tlb_page_numbers := rfl

@[simp] theorem faulted_tlb_frame_numbers (disk : Nat → Int) (s : SimState) (p : Nat) :
    (faulted disk s p).tlb_frame_numbers = s.tlb_frame_numbers := rfl

@[simp] theorem faulted_num_filled (disk : Nat → Int) (s : SimState) (p : Nat) :
    (faulted disk s p).num_filled = s.num_filled := rfl

@[simp] theorem faulted_head_position (disk : Nat → Int) (s : SimState) (p : Nat) :
    (faulted disk s p).head_position = s.head_position := rfl

@[simp] theorem faulted_hof (disk : Nat → Int) (s : SimState) (p : Nat) :
    (faulted disk s p).highest_open_frame = s.highest_open_frame + 1 := rfl

@[simp] theorem faulted_faults (disk : Nat → Int) (s : SimState) (p : Nat) :
    (faulted disk s p).num_Pg_faults = s.num_Pg_faults + 1 := rfl

@[simp] theorem faulted_hits (disk : Nat → Int) (s : SimState) (p : Nat) :
    (faulted disk s p).num_TLB_hits = s.num_TLB_hits := rfl

@[simp] theorem faulted_processed (disk : Nat → Int) (s : SimState) (p : Nat) :
    (faulted disk s p).num_addresses_processed = s.num_addresses_processed := rfl

theorem faulted_Inv (disk : Nat → Int) (s : SimState) (p : Nat) (hInv : Inv s)
    (hp : p < 256) (hmiss : s.page_table p = -1) :
    Inv (faulted disk s p) := by
  have hne_pages : ∀ slot, IsHeld s slot → s.tlb_page_numbers slot ≠ p := by
    intro slot hs hcontra
    have h := hInv.tlb_pt slot hs
    rw [hcontra, hmiss] at h
    omega
  constructor
  · exact hInv.filled_le
  · exact hInv.head_eq_zero
  · exact hInv.head_lt
  · intro slot hs
    have hs' : IsHeld s slot := hs
    rw [faulted_page_table]
    simp only [faulted_tlb_page_numbers, faulted_tlb_frame_numbers]
    rw [if_neg (hne_pages slot hs')]
    exact hInv.tlb_pt slot hs'
  · exact hInv.tlb_nodup
  · intro q
    rw [faulted_page_table, faulted_hof]
    dsimp only
    by_cases hq : q = p
    · rw [if_pos hq]
      exact Or.inr ⟨s.highest_open_frame, rfl, Nat.lt_succ_self _⟩
    · rw [if_neg hq]
      rcases hInv.pt_range q with h | ⟨f, hf, hlt⟩
      · exact Or.inl h
      · exact Or.inr ⟨f, hf, Nat.lt_succ_of_lt hlt⟩
  · show s.highest_open_frame + 1 = _
    have hset : (Finset.range 256).filter (fun q => (faulted disk s p).page_table q ≠ -1) =
        insert p ((Finset.range 256).filter (fun q => s.page_table q ≠ -1)) := by
      ext q
      rw [faulted_page_table]
      simp only [Finset.mem_filter, Finset.mem_insert, Finset.mem_range]
      by_cases hq : q = p
      · subst hq
        simp [hp]
      · simp [hq]
    rw [hset, Finset.card_insert_of_not_mem (by simp [hmiss]), ← hInv.hof_card]
  · intro q hq
    rw [faulted_page_table]
    dsimp only
    rw [if_neg (by omega : ¬q = p)]
    exact hInv.pt_big q hq
  · show s.highest_open_frame + 1 = s.num_Pg_faults + 1
    rw [hInv.hof_faults]

theorem check_page_table_Inv (disk : Nat → Int) (s : SimState) (p : Nat)
    (hInv : Inv s) (hp : p < 256) (hmiss : search_TLB s p = -1) :
    Inv (check_page_table disk s p) := by
  have habs := notInTLB_of_search_miss s hInv.filled_le hInv.head_eq_zero hInv.head_lt p hmiss
  by_cases hpt : s.page_table p = -1
  · rw [check_page_table_eq_miss disk s p hpt]
    refine update_TLB_Inv _ _ _ (faulted_Inv disk s p hInv hp hpt) habs ?_
    rw [faulted_page_table]
    dsimp only
    rw [if_pos rfl]
  · rw [check_page_table_eq_hit disk s p hpt]
    rcases hInv.pt_range p with h | ⟨f, hf, _⟩
    · exact absurd h hpt
    · refine update_TLB_Inv _ _ _ hInv habs ?_
      rw [hf]
      simp

theorem Inv_set_processed (s : SimState) (n : Nat) (hInv : Inv s) :
    Inv { s with num_addresses_processed := n } :=
  ⟨hInv.filled_le, hInv.head_eq_zero, hInv.head_lt, hInv.tlb_pt, hInv.tlb_nodup,
    hInv.pt_range, hInv.hof_card, hInv.pt_big, hInv.hof_faults⟩

theorem Inv_set_hits (s : SimState) (n : Nat) (hInv : Inv s) :
    Inv { s with num_TLB_hits := n } :=
  ⟨hInv.filled_le, hInv.head_eq_zero, hInv.head_lt, hInv.tlb_pt, hInv.tlb_nodup,
    hInv.pt_range, hInv.hof_card, hInv.pt_big, hInv.hof_faults⟩

theorem process_address_Inv (disk : Nat → Int) (s : SimState) (a : Nat) (hInv : Inv s) :
    Inv (process_address disk s a).state := by
  unfold process_address
  dsimp only
  split
  · rename_i hmiss
    exact check_page_table_Inv disk _ _ (Inv_set_processed s _ hInv) (get_page_number_lt a) hmiss
  · exact Inv_set_hits { s with num_addresses_processed := s.num_addresses_processed + 1 } _
      (Inv_set_processed s _ hInv)

theorem run_Inv (disk : Nat → Int) (s : SimState) (addrs : List Nat) (hInv : Inv s) :
    Inv (run disk s addrs) := by
  induction addrs generalizing s with
  | nil => exact hInv
  | cons a rest ih => exact ih _ (process_address_Inv disk s a hInv)

theorem initial_Inv : Inv initial_state := by
  constructor
  · decide
  · intro _; rfl
  · decide
  · intro slot hs
    rcases hs with ⟨_, h | h⟩
    · exact absurd h (by decide)
    · exact absurd h (by simp [initial_state])
  · intro a b ha _ _
    rcases ha with ⟨_, h | h⟩
    · exact absurd h (by decide)
    · exact absurd h (by simp [initial_state])
  · intro p
    exact Or.inl rfl
  · simp [initial_state]
  · intro _ _
    rfl
  · rfl

@[simp] theorem search_TLB_set_processed (s : SimState) (n p : Nat) :
    search_TLB { s with num_addresses_processed := n } p = search_TLB s p :=
  search_TLB_congr { s with num_addresses_processed := n } s rfl rfl rfl rfl p

@[simp] theorem search_TLB_set_hits (s : SimState) (n p : Nat) :
    search_TLB { s with num_TLB_hits := n } p = search_TLB s p :=
  search_TLB_congr { s with num_TLB_hits := n } s rfl rfl rfl rfl p

theorem check_page_table_processed (disk : Nat → Int) (s : SimState) (p : Nat) :
    (check_page_table disk s p).num_addresses_processed = s.num_addresses_processed := by
  by_cases h : s.page_table p = -1
  · rw [check_page_table_eq_miss disk s p h, update_TLB_processed, faulted_processed]
  · rw [check_page_table_eq_hit disk s p h, update_TLB_processed]

theorem check_page_table_hits (disk : Nat → Int) (s : SimState) (p : Nat) :
    (check_page_table disk s p).num_TLB_hits = s.num_TLB_hits := by
  by_cases h : s.page_table p = -1
  · rw [check_page_table_eq_miss disk s p h, update_TLB_hits, faulted_hits]
  · rw [check_page_table_eq_hit disk s p h, update_TLB_hits]

theorem check_page_table_faults (disk : Nat → Int) (s : SimState) (p : Nat) :
    (check_page_table disk s p).num_Pg_faults =
      if s.page_table p = -1 then s.num_Pg_faults + 1 else s.num_Pg_faults := by
  by_cases h : s.page_table p = -1
  · rw [check_page_table_eq_miss disk s p h, update_TLB_faults, faulted_faults, if_pos h]
  · rw [check_page_table_eq_hit disk s p h, update_TLB_faults, if_neg h]

theorem check_page_table_hof (disk : Nat → Int) (s : SimState) (p : Nat) :
    (check_page_table disk s p).highest_open_frame =
      if s.page_table p = -1 then s.highest_open_frame + 1 else s.highest_open_frame := by
  by_cases h : s.page_table p = -1
  · rw [check_page_table_eq_miss disk s p h, update_TLB_hof, faulted_hof, if_pos h]
  · rw [check_page_table_eq_hit disk s p h, update_TLB_hof, if_neg h]

theorem check_page_table_pt_miss (disk : Nat → Int) (s : SimState) (p : Nat)
    (h : s.page_table p = -1) :
    (check_page_table disk s p).page_table =
      fun q => if q = p then (s.highest_open_frame : Int) else s.page_table q := by
  rw [check_page_table_eq_miss disk s p h, update_TLB_page_table, faulted_page_table]

theorem check_page_table_pt_hit (disk : Nat → Int) (s : SimState) (p : Nat)
    (h : ¬s.page_table p = -1) :
    (check_page_table disk s p).page_table = s.page_table := by
  rw [check_page_table_eq_hit disk s p h, update_TLB_page_table]

theorem process_address_miss (disk : Nat → Int) (s : SimState) (a : Nat)
    (h : search_TLB s (get_page_number a) = -1) :
    (process_address disk s a).state =
        check_page_table disk { s with num_addresses_processed := s.num_addresses_processed + 1 }
          (get_page_number a) ∧
      (process_address disk s a).frame_number =
        search_TLB
          (check_page_table disk { s with num_addresses_processed := s.num_addresses_processed + 1 }
            (get_page_number a))
          (get_page_number a) := by
  unfold process_address
  dsimp only
  rw [if_pos (by rw [search_TLB_set_processed]; exact h)]
  exact ⟨rfl, rfl⟩

theorem process_address_hit (disk : Nat → Int) (s : SimState) (a : Nat)
    (h : ¬search_TLB s (get_page_number a) = -1) :
    (process_address disk s a).state =
        { s with
          num_addresses_processed := s.num_addresses_processed + 1
          num_TLB_hits := s.num_TLB_hits + 1 } ∧
      (process_address disk s a).frame_number = search_TLB s (get_page_number a) := by
  unfold process_address
  dsimp only
  rw [if_neg (by rw [search_TLB_set_processed]; exact h)]
  exact ⟨rfl, by rw [search_TLB_set_processed]⟩

theorem process_address_physical (disk : Nat → Int) (s : SimState) (a : Nat) :
    (process_address disk s a).physical_address =
      (process_address disk s a).frame_number * (FRAME_SIZE_BYTES : Int) +
        (get_offset a : Int) := rfl

theorem process_address_value (disk : Nat → Int) (s : SimState) (a : Nat) :
    (process_address disk s a).value =
      (process_address disk s a).state.mem
        (process_address disk s a).frame_number.toNat (get_offset a) := rfl

theorem process_address_processed (disk : Nat → Int) (s : SimState) (a : Nat) :
    (process_address disk s a).state.num_addresses_processed =
      s.num_addresses_processed + 1 := by
  by_cases h : search_TLB s (get_page_number a) = -1
  · rw [(process_address_miss disk s a h).1, check_page_table_processed]
  · rw [(process_address_hit disk s a h).1]

theorem process_address_hits (disk : Nat → Int) (s : SimState) (a : Nat) :
    (process_address disk s a).state.num_TLB_hits =
      if search_TLB s (get_page_number a) = -1 then s.num_TLB_hits
      else s.num_TLB_hits + 1 := by
  by_cases h : search_TLB s (get_page_number a) = -1
  · rw [(process_address_miss disk s a h).1, check_page_table_hits, if_pos h]
  · rw [(process_address_hit disk s a h).1, if_neg h]

theorem process_address_faults (disk : Nat → Int) (s : SimState) (a : Nat) :
    (process_address disk s a).state.num_Pg_faults =
      if search_TLB s (get_page_number a) = -1 ∧ s.page_table (get_page_number a) = -1 then
        s.num_Pg_faults + 1
      else s.num_Pg_faults := by
  by_cases h : search_TLB s (get_page_number a) = -1
  · rw [(process_address_miss disk s a h).1, check_page_table_faults]
    by_cases hpt : s.page_table (get_page_number a) = -1
    · rw [if_pos hpt, if_pos ⟨h, hpt⟩]
    · rw [if_neg hpt, if_neg (by intro hc; exact hpt hc.2)]
  · rw [(process_address_hit disk s a h).1,
      if_neg (by intro hc; exact h hc.1)]

theorem process_address_hof (disk : Nat → Int) (s : SimState) (a : Nat) :
    (process_address disk s a).state.highest_open_frame =
      if search_TLB s (get_page_number a) = -1 ∧ s.page_table (get_page_number a) = -1 then
        s.highest_open_frame + 1
      else s.highest_open_frame := by
  by_cases h : search_TLB s (get_page_number a) = -1
  · rw [(process_address_miss disk s a h).1, check_page_table_hof]
    by_cases hpt : s.page_table (get_page_number a) = -1
    · rw [if_pos hpt, if_pos ⟨h, hpt⟩]
    · rw [if_neg hpt, if_neg (by intro hc; exact hpt hc.2)]
  · rw [(process_address_hit disk s a h).1,
      if_neg (by intro hc; exact h hc.1)]

theorem check_page_table_pt_at (disk : Nat → Int) (s : SimState) (p q : Nat) (hq : ¬q = p) :
    (check_page_table disk s p).page_table q = s.page_table q := by
  by_cases h : s.page_table p = -1
  · rw [check_page_table_pt_miss disk s p h]
    dsimp only
    rw [if_neg hq]
  · rw [check_page_table_pt_hit disk s p h]

theorem process_address_pt_preserved (disk : Nat → Int) (s : SimState) (a p : Nat)
    (h : ¬s.page_table p = -1) :
    (process_address disk s a).state.page_table p = s.page_table p := by
  by_cases hm : search_TLB s (get_page_number a) = -1
  · rw [(process_address_miss disk s a hm).1]
    by_cases hqp : p = get_page_number a
    · subst hqp
      rw [check_page_table_pt_hit]
      exact h
    · rw [check_page_table_pt_at disk _ _ _ hqp]
  · rw [(process_address_hit disk s a hm).1]

theorem check_page_table_filled (disk : Nat → Int) (s : SimState) (p : Nat) :
    (check_page_table disk s p).num_filled =
      if s.num_filled = NUM_TLB_ENTRIES then s.num_filled else s.num_filled + 1 := by
  by_cases h : s.page_table p = -1
  · rw [check_page_table_eq_miss disk s p h]
    by_cases hf : s.num_filled = NUM_TLB_ENTRIES
    · rw [(update_TLB_full (faulted disk s p) p s.highest_open_frame hf).2.2.1,
        faulted_num_filled, if_pos hf]
    · rw [(update_TLB_not_full (faulted disk s p) p s.highest_open_frame hf).2.2.1,
        faulted_num_filled, if_neg hf]
  · rw [check_page_table_eq_hit disk s p h]
    by_cases hf : s.num_filled = NUM_TLB_ENTRIES
    · rw [(update_TLB_full s p (s.page_table p).toNat hf).2.2.1, if_pos hf]
    · rw [(update_TLB_not_full s p (s.page_table p).toNat hf).2.2.1, if_neg hf]

theorem process_address_filled (disk : Nat → Int) (s : SimState) (a : Nat) :
    (process_address disk s a).state.num_filled = s.num_filled ∨
      ((process_address disk s a).state.num_filled = s.num_filled + 1 ∧
        s.num_filled ≠ NUM_TLB_ENTRIES) := by
  by_cases hm : search_TLB s (get_page_number a) = -1
  · rw [(process_address_miss disk s a hm).1, check_page_table_filled]
    dsimp only
    by_cases hf : s.num_filled = NUM_TLB_ENTRIES
    · rw [if_pos hf]
      exact Or.inl rfl
    · rw [if_neg hf]
      exact Or.inr ⟨rfl, hf⟩
  · rw [(process_address_hit disk s a hm).1]
    exact Or.inl rfl

theorem run_processed (disk : Nat → Int) (s : SimState) (addrs : List Nat) :
    (run disk s addrs).num_addresses_processed =
      s.num_addresses_processed + addrs.length := by
  induction addrs generalizing s with
  | nil => rfl
  | cons a rest ih =>
    show (run disk (process_address disk s a).state rest).num_addresses_processed = _
    rw [ih, process_address_processed]
    simp [List.length_cons]
    omega

theorem run_hits_tp (disk : Nat → Int) (s : SimState) (addrs : List Nat) :
    (run disk s addrs).num_TLB_hits + table_path_count disk s addrs =
      s.num_TLB_hits + addrs.length := by
  induction addrs generalizing s with
  | nil => rfl
  | cons a rest ih =>
    show (run disk (process_address disk s a).state rest).num_TLB_hits +
        table_path_count disk s (a :: rest) = _
    have htp : table_path_count disk s (a :: rest) =
        (if search_TLB s (get_page_number a) = -1 then 1 else 0) +
          table_path_count disk (process_address disk s a).state rest := by
      show (if search_TLB { s with
            num_addresses_processed := s.num_addresses_processed + 1 }
            (get_page_number a) = -1 then 1 else 0) + _ = _
      rw [search_TLB_set_processed]
    rw [htp]
    have hih := ih (process_address disk s a).state
    have hh := process_address_hits disk s a
    simp only [List.length_cons]
    by_cases hm : search_TLB s (get_page_number a) = -1
    · rw [if_pos hm]
      rw [if_pos hm] at hh
      omega
    · rw [if_neg hm]
      rw [if_neg hm] at hh
      omega

theorem run_faults_le (disk : Nat → Int) (s : SimState) (addrs : List Nat) :
    (run disk s addrs).num_Pg_faults ≤ s.num_Pg_faults + addrs.length := by
  induction addrs generalizing s with
  | nil => simp [run]
  | cons a rest ih =>
    show (run disk (process_address disk s a).state rest).num_Pg_faults ≤ _
    have hih := ih (process_address disk s a).state
    have hf := process_address_faults disk s a
    simp only [List.length_cons]
    split at hf <;> omega

theorem run_faults_mono (disk : Nat → Int) (s : SimState) (addrs : List Nat) :
    s.num_Pg_faults ≤ (run disk s addrs).num_Pg_faults := by
  induction addrs generalizing s with
  | nil => exact Nat.le_refl _
  | cons a rest ih =>
    show s.num_Pg_faults ≤ (run disk (process_address disk s a).state rest).num_Pg_faults
    have hih := ih (process_address disk s a).state
    have hf := process_address_faults disk s a
    split at hf <;> omega

theorem run_hits_mono (disk : Nat → Int) (s : SimState) (addrs : List Nat) :
    s.num_TLB_hits ≤ (run disk s addrs).num_TLB_hits := by
  induction addrs generalizing s with
  | nil => exact Nat.le_refl _
  | cons a rest ih =>
    show s.num_TLB_hits ≤ (run disk (process_address disk s a).state rest).num_TLB_hits
    have hih := ih (process_address disk s a).state
    have hh := process_address_hits disk s a
    split at hh <;> omega

theorem run_filled_mono (disk : Nat → Int) (s : SimState) (addrs : List Nat) :
    s.num_filled ≤ (run disk s addrs).num_filled ∧
      (s.num_filled = NUM_TLB_ENTRIES →
        (run disk s addrs).num_filled = NUM_TLB_ENTRIES) := by
  induction addrs generalizing s with
  | nil => exact ⟨Nat.le_refl _, fun h => h⟩
  | cons a rest ih =>
    have hih := ih (process_address disk s a).state
    have hf := process_address_filled disk s a
    constructor
    · show s.num_filled ≤ (run disk (process_address disk s a).state rest).num_filled
      rcases hf with h | ⟨h, _⟩ <;> omega
    · intro hfull
      show (run disk (process_address disk s a).state rest).num_filled = NUM_TLB_ENTRIES
      rcases hf with h | ⟨_, hne⟩
      · exact hih.2 (by omega)
      · exact absurd hfull hne

theorem run_pt_preserved (disk : Nat → Int) (s : SimState) (addrs : List Nat) (p : Nat)
    (h : ¬s.page_table p = -1) :
    (run disk s addrs).page_table p = s.page_table p := by
  induction addrs generalizing s with
  | nil => rfl
  | cons a rest ih =>
    show (run disk (process_address disk s a).state rest).page_table p = _
    have hstep := process_address_pt_preserved disk s a p h
    rw [ih (process_address disk s a).state (by rw [hstep]; exact h), hstep]

theorem update_TLB_preserves_absent (u : SimState) (q f p : Nat)
    (hle : u.num_filled ≤ NUM_TLB_ENTRIES) (hq : ¬q = p)
    (htlb : ∀ slot, IsHeld u slot → u.tlb_page_numbers slot ≠ p) :
    ∀ slot, IsHeld (update_TLB u q f) slot →
      (update_TLB u q f).tlb_page_numbers slot ≠ p := by
  intro slot hs
  by_cases hfull : u.num_filled = NUM_TLB_ENTRIES
  · obtain ⟨hpages, _, hfilled, _⟩ := update_TLB_full u q f hfull
    have hs' : IsHeld u slot := by
      rcases hs with ⟨h16, hor⟩
      rw [hfilled] at hor
      exact ⟨h16, hor⟩
    rw [hpages]
    dsimp only
    by_cases hw : slot = u.head_position
    · rw [if_pos hw]
      exact hq
    · rw [if_neg hw]
      exact htlb slot hs'
  · obtain ⟨hpages, _, hfilled, _⟩ := update_TLB_not_full u q f hfull
    have hle' : (update_TLB u q f).num_filled ≤ NUM_TLB_ENTRIES := by
      rw [hfilled]
      omega
    have hslot : slot < u.num_filled + 1 := by
      have := (isHeld_iff_lt _ hle' slot).1 hs
      rw [hfilled] at this
      exact this
    rw [hpages]
    dsimp only
    by_cases hw : slot = u.num_filled
    · rw [if_pos hw]
      exact hq
    · rw [if_neg hw]
      exact htlb slot ((isHeld_iff_lt u hle slot).2 (by omega))

theorem check_preserves_absent (disk : Nat → Int) (s : SimState) (q p : Nat)
    (hle : s.num_filled ≤ NUM_TLB_ENTRIES) (hq : ¬q = p)
    (htlb : ∀ slot, IsHeld s slot → s.tlb_page_numbers slot ≠ p) :
    ∀ slot, IsHeld (check_page_table disk s q) slot →
      (check_page_table disk s q).tlb_page_numbers slot ≠ p := by
  by_cases h : s.page_table q = -1
  · rw [check_page_table_eq_miss disk s q h]
    exact update_TLB_preserves_absent (faulted disk s q) q _ p hle hq htlb
  · rw [check_page_table_eq_hit disk s q h]
    exact update_TLB_preserves_absent s q _ p hle hq htlb

theorem process_preserves_absent (disk : Nat → Int) (s : SimState) (a : Nat) (p : Nat)
    (hInv : Inv s) (hq : ¬get_page_number a = p)
    (hpt : s.page_table p = -1)
    (htlb : ∀ slot, IsHeld s slot → s.tlb_page_numbers slot ≠ p) :
    (process_address disk s a).state.page_table p = -1 ∧
      ∀ slot, IsHeld (process_address disk s a).state slot →
        (process_address disk s a).state.tlb_page_numbers slot ≠ p := by
  by_cases hm : search_TLB s (get_page_number a) = -1
  · rw [(process_address_miss disk s a hm).1]
    constructor
    · rw [check_page_table_pt_at disk _ _ _ (fun hc => hq hc.symm)]
      exact hpt
    · exact check_preserves_absent disk
        { s with num_addresses_processed := s.num_addresses_processed + 1 }
        (get_page_number a) p hInv.filled_le hq htlb
  · rw [(process_address_hit disk s a hm).1]
    exact ⟨hpt, htlb⟩

theorem run_preserves_absent (disk : Nat → Int) (addrs : List Nat) (s : SimState) (p : Nat)
    (hInv : Inv s) (hpt : s.page_table p = -1)
    (htlb : ∀ slot, IsHeld s slot → s.tlb_page_numbers slot ≠ p)
    (hfresh : ∀ a ∈ addrs, ¬get_page_number a = p) :
    (run disk s addrs).page_table p = -1 ∧
      ∀ slot, IsHeld (run disk s addrs) slot →
        (run disk s addrs).tlb_page_numbers slot ≠ p := by
  induction addrs generalizing s with
  | nil => exact ⟨hpt, htlb⟩
  | cons a rest ih =>
    have hstep := process_preserves_absent disk s a p hInv
      (hfresh a (List.mem_cons_self a rest)) hpt htlb
    exact ih (process_address disk s a).state (process_address_Inv disk s a hInv)
      hstep.1 hstep.2 (fun b hb => hfresh b (List.mem_cons_of_mem a hb))

theorem search_TLB_found_slot_aux (s : SimState)
    (h1 : s.num_filled ≤ NUM_TLB_ENTRIES)
    (h2 : s.num_filled < NUM_TLB_ENTRIES → s.head_position = 0)
    (h3 : s.head_position < NUM_TLB_ENTRIES)
    (p : Nat) (h : search_TLB s p ≠ -1) :
    ∃ slot, IsHeld s slot ∧ s.tlb_page_numbers slot = p ∧
      search_TLB s p = (s.tlb_frame_numbers slot : Int) := by
  obtain ⟨i, hi, ha, hb⟩ := search_TLB_found s p h
  exact ⟨(s.head_position + i) % NUM_TLB_ENTRIES,
    (scan_slot_iff s h1 h2 h3 _).1 ⟨i, hi, rfl⟩, ha, hb⟩

theorem update_TLB_search_found (u : SimState) (p f : Nat)
    (h1 : u.num_filled ≤ NUM_TLB_ENTRIES)
    (h2 : u.num_filled < NUM_TLB_ENTRIES → u.head_position = 0)
    (h3 : u.head_position < NUM_TLB_ENTRIES)
    (habs : ∀ slot, IsHeld u slot → u.tlb_page_numbers slot ≠ p) :
    search_TLB (update_TLB u p f) p = (f : Int) := by
  by_cases hfull : u.num_filled = NUM_TLB_ENTRIES
  · obtain ⟨hpages, hframes, hfilled, hhead⟩ := update_TLB_full u p f hfull
    have h1' : (update_TLB u p f).num_filled ≤ NUM_TLB_ENTRIES := by rw [hfilled]; exact h1
    have h2' : (update_TLB u p f).num_filled < NUM_TLB_ENTRIES →
        (update_TLB u p f).head_position = 0 := by
      rw [hfilled]
      intro hc
      exact absurd hfull (by omega)
    have h3' : (update_TLB u p f).head_position < NUM_TLB_ENTRIES := by
      rw [hhead]
      exact Nat.mod_lt _ (by decide)
    have hheld_w : IsHeld (update_TLB u p f) u.head_position :=
      ⟨h3, Or.inl (by rw [hfilled]; exact hfull)⟩
    have hne : search_TLB (update_TLB u p f) p ≠ -1 := by
      intro hc
      have := notInTLB_of_search_miss _ h1' h2' h3' p hc u.head_position hheld_w
      rw [hpages] at this
      dsimp only at this
      rw [if_pos rfl] at this
      exact this rfl
    obtain ⟨slot, hheld, hpage, hframe⟩ := search_TLB_found_slot_aux _ h1' h2' h3' p hne
    by_cases hw : slot = u.head_position
    · rw [hframe, hframes, hw]
      simp
    · exfalso
      rw [hpages] at hpage
      dsimp only at hpage
      rw [if_neg hw] at hpage
      have hheld_u : IsHeld u slot := by
        rcases hheld with ⟨hlt, hor⟩
        rw [hfilled] at hor
        exact ⟨hlt, hor⟩
      exact habs slot hheld_u hpage
  · obtain ⟨hpages, hframes, hfilled, hhead⟩ := update_TLB_not_full u p f hfull
    have hlt : u.num_filled < NUM_TLB_ENTRIES := lt_of_le_of_ne h1 hfull
    have h1' : (update_TLB u p f).num_filled ≤ NUM_TLB_ENTRIES := by rw [hfilled]; omega
    have h2' : (update_TLB u p f).num_filled < NUM_TLB_ENTRIES →
        (update_TLB u p f).head_position = 0 := by
      rw [hhead]
      intro _
      exact h2 hlt
    have h3' : (update_TLB u p f).head_position < NUM_TLB_ENTRIES := by
      rw [hhead]
      exact h3
    have hheld_w : IsHeld (update_TLB u p f) u.num_filled := by
      rw [isHeld_iff_lt _ h1', hfilled]
      omega
    have hne : search_TLB (update_TLB u p f) p ≠ -1 := by
      intro hc
      have := notInTLB_of_search_miss _ h1' h2' h3' p hc u.num_filled hheld_w
      rw [hpages] at this
      dsimp only at this
      rw [if_pos rfl] at this
      exact this rfl
    obtain ⟨slot, hheld, hpage, hframe⟩ := search_TLB_found_slot_aux _ h1' h2' h3' p hne
    by_cases hw : slot = u.num_filled
    · rw [hframe, hframes, hw]
      simp
    · exfalso
      rw [hpages] at hpage
      dsimp only at hpage
      rw [if_neg hw] at hpage
      have hheld_u : IsHeld u slot := by
        have := (isHeld_iff_lt _ h1' slot).1 hheld
        rw [hfilled] at this
        exact (isHeld_iff_lt u h1 slot).2 (by omega)
      exact habs slot hheld_u hpage

theorem resolve_frame (disk : Nat → Int) (s : SimState) (hInv : Inv s) (p f : Nat)
    (hpt : s.page_table p = (f : Int)) (a : Nat) (ha : get_page_number a = p) :
    (process_address disk s a).frame_number = (f : Int) := by
  by_cases hm : search_TLB s (get_page_number a) = -1
  · rw [(process_address_miss disk s a hm).2, ha]
    rw [ha] at hm
    have hptne : ¬({ s with num_addresses_processed := s.num_addresses_processed + 1 } :
        SimState).page_table p = -1 := by
      show ¬s.page_table p = -1
      rw [hpt]
      intro hc
      omega
    rw [check_page_table_eq_hit _ _ _ hptne]
    have hcast : ({ s with num_addresses_processed := s.num_addresses_processed + 1 } :
        SimState).page_table p = (f : Int) := hpt
    rw [hcast]
    have hres := update_TLB_search_found
      { s with num_addresses_processed := s.num_addresses_processed + 1 } p ((f : Int)).toNat
      hInv.filled_le hInv.head_eq_zero hInv.head_lt
      (notInTLB_of_search_miss _ hInv.filled_le hInv.head_eq_zero hInv.head_lt p hm)
    rw [hres]
    simp
  · have hfr := (process_address_hit disk s a hm).2
    rw [ha] at hm hfr
    have hcons := (search_TLB_consistent s hInv p hm).1
    rw [hfr, hcons, hpt]

theorem hof_le_256 (s : SimState) (hInv : Inv s) : s.highest_open_frame ≤ 256 := by
  rw [hInv.hof_card]
  calc ((Finset.range 256).filter (fun p => s.page_table p ≠ -1)).card
      ≤ (Finset.range 256).card := Finset.card_filter_le _ _
    _ = 256 := Finset.card_range 256

theorem hof_lt_of_unmapped (s : SimState) (hInv : Inv s) (p : Nat) (hp : p < 256)
    (hmiss : s.page_table p = -1) : s.highest_open_frame < 256 := by
  rw [hInv.hof_card]
  have hsub : (Finset.range 256).filter (fun q => s.page_table q ≠ -1) ⊆
      (Finset.range 256).erase p := by
    intro q hq
    rw [Finset.mem_filter] at hq
    rw [Finset.mem_erase]
    refine ⟨?_, hq.1⟩
    intro hc
    rw [hc] at hq
    exact hq.2 hmiss
  have hcard := Finset.card_le_card hsub
  rw [Finset.card_erase_of_mem (Finset.mem_range.2 hp), Finset.card_range] at hcard
  omega

theorem initial_not_held (slot : Nat) : ¬IsHeld initial_state slot := by
  rintro ⟨_, h | h⟩
  · exact absurd h (by decide)
  · exact absurd h (by simp [initial_state])

@[simp] theorem faulted_mem (disk : Nat → Int) (s : SimState) (p fr i : Nat) :
    (faulted disk s p).mem fr i =
      if fr = s.highest_open_frame ∧ i < PAGE_SIZE_BYTES then
        disk (p * PAGE_SIZE_BYTES + i)
      else s.mem fr i := rfl

theorem get_page_number_eq_shift (a : Nat) :
    get_page_number a = (a >>> 8) &&& 0xFF := by
  unfold get_page_number
  apply Nat.eq_of_testBit_eq
  intro i
  simp only [Nat.testBit_shiftRight, Nat.testBit_and]
  have h : (65280 : Nat) = 255 <<< 8 := by decide
  rw [h, Nat.testBit_shiftLeft]
  simp

theorem get_offset_decompose (P k : Nat) (hk : k < 256) :
    get_offset (P * 256 + k) = k := by
  unfold get_offset
  have h := Nat.and_pow_two_sub_one_eq_mod (P * 256 + k) 8
  simp at h
  omega

theorem get_page_number_decompose (P k : Nat) (hP : P < 256) (hk : k < 256) :
    get_page_number (P * 256 + k) = P := by
  rw [get_page_number_eq_shift, Nat.shiftRight_eq_div_pow]
  have hdiv : (P * 256 + k) / 2 ^ 8 = P := by
    norm_num
    omega
  rw [hdiv]
  have h := Nat.and_pow_two_sub_one_eq_mod P 8
  simp at h
  omega

/-- C1: for every page number first referenced in the address stream, the
first resolution goes through the page-table path (the TLB probe misses and
the page-table entry is still `-1`) and is counted as a page fault,
regardless of the Translation Cache's contents at that moment. -/
theorem first_touch_is_fault (disk : Nat → Int) (pre : List Nat) (a : Nat)
    (hfresh : ∀ b ∈ pre, ¬get_page_number b = get_page_number a) :
    search_TLB (run disk initial_state pre) (get_page_number a) = -1 ∧
      (run disk initial_state pre).page_table (get_page_number a) = -1 ∧
      (process_address disk (run disk initial_state pre) a).state.num_Pg_faults =
        (run disk initial_state pre).num_Pg_faults + 1 := by
  have habs := run_preserves_absent disk pre initial_state (get_page_number a)
    initial_Inv rfl (fun slot hs => absurd hs (initial_not_held slot)) hfresh
  have hInv := run_Inv disk initial_state pre initial_Inv
  have hmiss := search_miss_of_notInTLB _ hInv.filled_le hInv.head_eq_zero hInv.head_lt _ habs.2
  refine ⟨hmiss, habs.1, ?_⟩
  rw [process_address_faults, if_pos ⟨hmiss, habs.1⟩]

/-- Witness for C1 at the concrete stream `[0, 256]` followed by address
`512`, whose page 2 is fresh. -/
theorem first_touch_is_fault_witness :
    search_TLB (run disk0 initial_state [0, 256]) (get_page_number 512) = -1 ∧
      (run disk0 initial_state [0, 256]).page_table (get_page_number 512) = -1 ∧
      (process_address disk0 (run disk0 initial_state [0, 256]) 512).state.num_Pg_faults =
        (run disk0 initial_state [0, 256]).num_Pg_faults + 1 :=
  first_touch_is_fault disk0 [0, 256] 512 (by decide)

/-- C2: once a page number `p` has a page-table entry `f`, the entry is
never modified for the remainder of the run, and every subsequent resolution
of an address on page `p` (whether via the Translation Cache or the Page
Table) yields the same frame number `f`. -/
theorem page_mapping_stable (disk : Nat → Int) (addrs rest : List Nat) (p f : Nat)
    (hpt : (run disk initial_state addrs).page_table p = (f : Int)) :
    (run disk (run disk initial_state addrs) rest).page_table p = (f : Int) ∧
      ∀ a, get_page_number a = p →
        (process_address disk (run disk initial_state addrs) a).frame_number = (f : Int) ∧
          (process_address disk (run disk initial_state addrs) a).physical_address =
            (f : Int) * (FRAME_SIZE_BYTES : Int) + (get_offset a : Int) := by
  have hInv := run_Inv disk initial_state addrs initial_Inv
  have hne : ¬(run disk initial_state addrs).page_table p = -1 := by
    rw [hpt]
    intro hc
    omega
  refine ⟨by rw [run_pt_preserved disk _ rest p hne, hpt], ?_⟩
  intro a ha
  have hframe := resolve_frame disk _ hInv p f hpt a ha
  exact ⟨hframe, by rw [process_address_physical, hframe]⟩

/-- Witness for C2 after the stream `[0]`: page 0 is mapped to frame 0 and
stays so. -/
theorem page_mapping_stable_witness :
    (run disk0 (run disk0 initial_state [0]) [0, 7]).page_table 0 = ((0 : Nat) : Int) ∧
      ∀ a, get_page_number a = 0 →
        (process_address disk0 (run disk0 initial_state [0]) a).frame_number =
            ((0 : Nat) : Int) ∧
          (process_address disk0 (run disk0 initial_state [0]) a).physical_address =
            ((0 : Nat) : Int) * (FRAME_SIZE_BYTES : Int) + (get_offset a : Int) :=
  page_mapping_stable disk0 [0] [0, 7] 0 0 (by decide)

/-- C3: the TLB holds at most 16 entries; insertion with spare capacity
appends at the next free slot and increments the filled count; insertion
when full overwrites the slot at the current FIFO head and advances the head
modulo 16; and in the 17-distinct-pages scenario the earliest-inserted page
(page 0) is the one evicted, so its next reference is a cache miss (no hit
counted) but a table hit (no fault counted), while pages 1–16 are still
cached. -/
theorem tlb_fifo_policy (s : SimState) (p f : Nat) :
    (s.num_filled ≤ NUM_TLB_ENTRIES → (update_TLB s p f).num_filled ≤ NUM_TLB_ENTRIES) ∧
      (¬s.num_filled = NUM_TLB_ENTRIES →
        (update_TLB s p f).tlb_page_numbers s.num_filled = p ∧
          (update_TLB s p f).tlb_frame_numbers s.num_filled = f ∧
          (update_TLB s p f).num_filled = s.num_filled + 1 ∧
          (update_TLB s p f).head_position = s.head_position ∧
          ∀ i, ¬i = s.num_filled →
            (update_TLB s p f).tlb_page_numbers i = s.tlb_page_numbers i ∧
              (update_TLB s p f).tlb_frame_numbers i = s.tlb_frame_numbers i) ∧
      (s.num_filled = NUM_TLB_ENTRIES →
        (update_TLB s p f).tlb_page_numbers s.head_position = p ∧
          (update_TLB s p f).tlb_frame_numbers s.head_position = f ∧
          (update_TLB s p f).num_filled = NUM_TLB_ENTRIES ∧
          (update_TLB s p f).head_position = (s.head_position + 1) % NUM_TLB_ENTRIES ∧
          ∀ i, ¬i = s.head_position →
            (update_TLB s p f).tlb_page_numbers i = s.tlb_page_numbers i ∧
              (update_TLB s p f).tlb_frame_numbers i = s.tlb_frame_numbers i) ∧
      (search_TLB (run disk0 initial_state scenario_17) 0 = -1 ∧
        (∀ q, q < 17 → 0 < q → ¬search_TLB (run disk0 initial_state scenario_17) q = -1) ∧
        ¬(run disk0 initial_state scenario_17).page_table 0 = -1 ∧
        (run disk0 initial_state scenario_17).num_filled = NUM_TLB_ENTRIES ∧
        (process_address disk0 (run disk0 initial_state scenario_17) 0).state.num_TLB_hits =
          (run disk0 initial_state scenario_17).num_TLB_hits ∧
        (process_address disk0 (run disk0 initial_state scenario_17) 0).state.num_Pg_faults =
          (run disk0 initial_state scenario_17).num_Pg_faults) := by
  refine ⟨?_, ?_, ?_, by decide⟩
  · intro hle
    by_cases hf : s.num_filled = NUM_TLB_ENTRIES
    · rw [(update_TLB_full s p f hf).2.2.1]
      exact hle
    · rw [(update_TLB_not_full s p f hf).2.2.1]
      omega
  · intro h
    obtain ⟨hp, hfr, hfl, hh⟩ := update_TLB_not_full s p f h
    refine ⟨?_, ?_, hfl, hh, ?_⟩
    · rw [hp]
      dsimp only
      rw [if_pos rfl]
    · rw [hfr]
      dsimp only
      rw [if_pos rfl]
    · intro i hi
      constructor
      · rw [hp]
        dsimp only
        rw [if_neg hi]
      · rw [hfr]
        dsimp only
        rw [if_neg hi]
  · intro h
    obtain ⟨hp, hfr, hfl, hh⟩ := update_TLB_full s p f h
    refine ⟨?_, ?_, by rw [hfl]; exact h, hh, ?_⟩
    · rw [hp]
      dsimp only
      rw [if_pos rfl]
    · rw [hfr]
      dsimp only
      rw [if_pos rfl]
    · intro i hi
      constructor
      · rw [hp]
        dsimp only
        rw [if_neg hi]
      · rw [hfr]
        dsimp only
        rw [if_neg hi]

/-- C4: at every reachable state, no two entries currently held by the
Translation Cache (two distinct scanned positions among the `num_filled`
ones) carry the same page number. -/
theorem tlb_no_duplicate_pages (disk : Nat → Int) (addrs : List Nat) (i j : Nat)
    (hi : i < (run disk initial_state addrs).num_filled)
    (hj : j < (run disk initial_state addrs).num_filled)
    (hij : ¬i = j) :
    (run disk initial_state addrs).tlb_page_numbers
        (((run disk initial_state addrs).head_position + i) % NUM_TLB_ENTRIES) ≠
      (run disk initial_state addrs).tlb_page_numbers
        (((run disk initial_state addrs).head_position + j) % NUM_TLB_ENTRIES) := by
  have hInv := run_Inv disk initial_state addrs initial_Inv
  have hle := hInv.filled_le
  have hhead := hInv.head_lt
  have hslot : ¬((run disk initial_state addrs).head_position + i) % NUM_TLB_ENTRIES =
      ((run disk initial_state addrs).head_position + j) % NUM_TLB_ENTRIES := by
    simp only [NUM_TLB_ENTRIES] at *
    omega
  exact hInv.tlb_nodup _ _
    ((scan_slot_iff _ hle hInv.head_eq_zero hhead _).1 ⟨i, hi, rfl⟩)
    ((scan_slot_iff _ hle hInv.head_eq_zero hhead _).1 ⟨j, hj, rfl⟩)
    hslot

/-- Witness for C4 after the stream `[0, 256]`: the two held entries carry
the distinct page numbers 0 and 1. -/
theorem tlb_no_duplicate_pages_witness :
    (run disk0 initial_state [0, 256]).tlb_page_numbers
        (((run disk0 initial_state [0, 256]).head_position + 0) % NUM_TLB_ENTRIES) ≠
      (run disk0 initial_state [0, 256]).tlb_page_numbers
        (((run disk0 initial_state [0, 256]).head_position + 1) % NUM_TLB_ENTRIES) :=
  tlb_no_duplicate_pages disk0 [0, 256] 0 1 (by decide) (by decide) (by decide)

/-- C5: over any run, TLB hits plus addresses resolved through the
page-table path equal the total processed, faults never exceed the total,
and per address the processed count goes up by exactly one, the hit count by
one exactly on a cache hit, the fault count by one exactly on a page-table
miss; all three counters are non-decreasing across any run segment. -/
theorem statistics_accounting (disk : Nat → Int) (addrs : List Nat) (s : SimState) (a : Nat) :
    (run disk initial_state addrs).num_TLB_hits + table_path_count disk initial_state addrs =
        (run disk initial_state addrs).num_addresses_processed ∧
      (run disk initial_state addrs).num_Pg_faults ≤
        (run disk initial_state addrs).num_addresses_processed ∧
      (process_address disk s a).state.num_addresses_processed =
        s.num_addresses_processed + 1 ∧
      (process_address disk s a).state.num_TLB_hits =
        (if search_TLB s (get_page_number a) = -1 then s.num_TLB_hits
         else s.num_TLB_hits + 1) ∧
      (process_address disk s a).state.num_Pg_faults =
        (if search_TLB s (get_page_number a) = -1 ∧
            s.page_table (get_page_number a) = -1 then
          s.num_Pg_faults + 1
         else s.num_Pg_faults) ∧
      s.num_TLB_hits ≤ (run disk s addrs).num_TLB_hits ∧
      s.num_Pg_faults ≤ (run disk s addrs).num_Pg_faults ∧
      s.num_addresses_processed ≤ (run disk s addrs).num_addresses_processed := by
  refine ⟨?_, ?_, process_address_processed disk s a, process_address_hits disk s a,
    process_address_faults disk s a, run_hits_mono disk s addrs,
    run_faults_mono disk s addrs, ?_⟩
  · have h1 := run_hits_tp disk initial_state addrs
    have h2 := run_processed disk initial_state addrs
    have h3 : initial_state.num_TLB_hits = 0 := rfl
    have h4 : initial_state.num_addresses_processed = 0 := rfl
    omega
  · have h1 := run_faults_le disk initial_state addrs
    have h2 := run_processed disk initial_state addrs
    have h3 : initial_state.num_Pg_faults = 0 := rfl
    have h4 : initial_state.num_addresses_processed = 0 := rfl
    omega
  · rw [run_processed]
    omega

/-- C6: at every reachable state the next-free-frame counter equals the
number of page faults so far (so the k-th fault allocates frame k: frames are
handed out strictly increasing from 0 and never reused), it never exceeds
`NUM_FRAMES`, a fault in a reachable state allocates the frame equal to the
fault count and that frame index is below `NUM_FRAMES` (page numbers are
always in [0, 255]), and the counter advances exactly on faults. -/
theorem frame_allocation_increasing (disk : Nat → Int) (addrs : List Nat) (a : Nat) :
    (run disk initial_state addrs).highest_open_frame =
        (run disk initial_state addrs).num_Pg_faults ∧
      (run disk initial_state addrs).highest_open_frame ≤ NUM_FRAMES ∧
      ((run disk initial_state addrs).page_table (get_page_number a) = -1 →
        (load_page_disk_to_memory disk (run disk initial_state addrs)
              (get_page_number a)).2 =
            (run disk initial_state addrs).num_Pg_faults ∧
          (load_page_disk_to_memory disk (run disk initial_state addrs)
              (get_page_number a)).2 < NUM_FRAMES) ∧
      (process_address disk (run disk initial_state addrs) a).state.highest_open_frame =
        (if search_TLB (run disk initial_state addrs) (get_page_number a) = -1 ∧
            (run disk initial_state addrs).page_table (get_page_number a) = -1 then
          (run disk initial_state addrs).highest_open_frame + 1
         else (run disk initial_state addrs).highest_open_frame) := by
  have hInv := run_Inv disk initial_state addrs initial_Inv
  refine ⟨hInv.hof_faults, ?_, ?_, process_address_hof disk _ a⟩
  · exact hof_le_256 _ hInv
  · intro hmiss
    have hlt := hof_lt_of_unmapped _ hInv (get_page_number a) (get_page_number_lt a) hmiss
    have hload : (load_page_disk_to_memory disk (run disk initial_state addrs)
        (get_page_number a)).2 = (run disk initial_state addrs).highest_open_frame := rfl
    rw [hload, hInv.hof_faults] at *
    exact ⟨rfl, hlt⟩

/-- C7: the translator decomposes every virtual address `a` into
`page_number = (a >>> 8) &&& 0xFF` and `offset = a &&& 0xFF`, and reports
`physical_address = frame_number * 256 + offset` together with the byte read
from the Physical Store at frame `frame_number`, position `offset`. -/
theorem translation_decomposition (disk : Nat → Int) (s : SimState) (a : Nat) :
    get_page_number a = (a >>> 8) &&& 0xFF ∧
      get_offset a = a &&& 0xFF ∧
      (process_address disk s a).physical_address =
        (process_address disk s a).frame_number * 256 + (get_offset a : Int) ∧
      (process_address disk s a).value =
        (process_address disk s a).state.mem
          (process_address disk s a).frame_number.toNat (get_offset a) := by
  refine ⟨get_page_number_eq_shift a, rfl, ?_, rfl⟩
  rw [process_address_physical]
  norm_num [FRAME_SIZE_BYTES]

/-- C9: after a TLB miss in a reachable state, running `check_page_table`
for the missed page number makes the immediately following TLB re-probe
succeed: it returns a frame number (never the `-1` sentinel) that lies below
`NUM_FRAMES`, so the Physical Store read stays in bounds. -/
theorem tlb_reprobe_succeeds (disk : Nat → Int) (addrs : List Nat) (a : Nat)
    (hmiss : search_TLB (run disk initial_state addrs) (get_page_number a) = -1) :
    ¬search_TLB
          (check_page_table disk (run disk initial_state addrs) (get_page_number a))
          (get_page_number a) = -1 ∧
      ∃ f : Nat,
        search_TLB
            (check_page_table disk (run disk initial_state addrs) (get_page_number a))
            (get_page_number a) = (f : Int) ∧
          f < NUM_FRAMES := by
  have hInv := run_Inv disk initial_state addrs initial_Inv
  have habs := notInTLB_of_search_miss _ hInv.filled_le hInv.head_eq_zero hInv.head_lt
    _ hmiss
  by_cases hpt : (run disk initial_state addrs).page_table (get_page_number a) = -1
  · rw [check_page_table_eq_miss disk _ _ hpt]
    have hres := update_TLB_search_found (faulted disk (run disk initial_state addrs)
        (get_page_number a)) (get_page_number a)
      (run disk initial_state addrs).highest_open_frame
      hInv.filled_le hInv.head_eq_zero hInv.head_lt habs
    rw [hres]
    have hlt := hof_lt_of_unmapped _ hInv (get_page_number a) (get_page_number_lt a) hpt
    refine ⟨by omega, (run disk initial_state addrs).highest_open_frame, rfl, ?_⟩
    show (run disk initial_state addrs).highest_open_frame < 256
    omega
  · rw [check_page_table_eq_hit disk _ _ hpt]
    have hres := update_TLB_search_found (run disk initial_state addrs) (get_page_number a)
      ((run disk initial_state addrs).page_table (get_page_number a)).toNat
      hInv.filled_le hInv.head_eq_zero hInv.head_lt habs
    rw [hres]
    rcases hInv.pt_range (get_page_number a) with h | ⟨f, hf, hlt⟩
    · exact absurd h hpt
    · have hle := hof_le_256 _ hInv
      refine ⟨by omega, ((run disk initial_state addrs).page_table
          (get_page_number a)).toNat, rfl, ?_⟩
      rw [hf]
      show f < NUM_FRAMES
      show f < 256
      omega

/-- Witness for C9 from the empty run: the probe for page 0 misses on the
initial state and succeeds after `check_page_table`. -/
theorem tlb_reprobe_succeeds_witness :
    ¬search_TLB (check_page_table disk0 (run disk0 initial_state []) (get_page_number 0))
          (get_page_number 0) = -1 ∧
      ∃ f : Nat,
        search_TLB (check_page_table disk0 (run disk0 initial_state []) (get_page_number 0))
            (get_page_number 0) = (f : Int) ∧
          f < NUM_FRAMES :=
  tlb_reprobe_succeeds disk0 [] 0 (by decide)

/-- C10: structural invariant of the TLB: `num_filled` stays at most 16 and
never decreases, the head stays 0 while the TLB is not yet full and stays
below 16 always, and once full the TLB remains full for the rest of the
run. -/
theorem tlb_structural_invariant (disk : Nat → Int) (addrs rest : List Nat) :
    (run disk initial_state addrs).num_filled ≤ NUM_TLB_ENTRIES ∧
      ((run disk initial_state addrs).num_filled < NUM_TLB_ENTRIES →
        (run disk initial_state addrs).head_position = 0) ∧
      (run disk initial_state addrs).head_position < NUM_TLB_ENTRIES ∧
      (run disk initial_state addrs).num_filled ≤
        (run disk (run disk initial_state addrs) rest).num_filled ∧
      ((run disk initial_state addrs).num_filled = NUM_TLB_ENTRIES →
        (run disk (run disk initial_state addrs) rest).num_filled = NUM_TLB_ENTRIES) := by
  have hInv := run_Inv disk initial_state addrs initial_Inv
  have hmono := run_filled_mono disk (run disk initial_state addrs) rest
  exact ⟨hInv.filled_le, hInv.head_eq_zero, hInv.head_lt, hmono.1, hmono.2⟩

/-- C8: round-trip through the backing store: if the backing store's page
`P` holds byte `disk (P * 256 + k)` at position `k`, then processing virtual
address `P * 256 + k` from the initial state loads page `P` on a fault and
returns exactly that byte, and a repeated request for the same address is a
TLB hit that returns the identical physical address and byte value. -/
theorem backing_store_roundtrip (disk : Nat → Int) (P k : Nat)
    (hP : P < 256) (hk : k < 256) :
    (process_address disk initial_state (P * 256 + k)).value = disk (P * 256 + k) ∧
      (process_address disk initial_state (P * 256 + k)).state.num_Pg_faults = 1 ∧
      (process_address disk (process_address disk initial_state (P * 256 + k)).state
          (P * 256 + k)).state.num_TLB_hits =
        (process_address disk initial_state (P * 256 + k)).state.num_TLB_hits + 1 ∧
      (process_address disk (process_address disk initial_state (P * 256 + k)).state
          (P * 256 + k)).physical_address =
        (process_address disk initial_state (P * 256 + k)).physical_address ∧
      (process_address disk (process_address disk initial_state (P * 256 + k)).state
          (P * 256 + k)).value =
        (process_address disk initial_state (P * 256 + k)).value := by
  have hpage := get_page_number_decompose P k hP hk
  have hoff := get_offset_decompose P k hk
  have hmiss1 : search_TLB initial_state (get_page_number (P * 256 + k)) = -1 := rfl
  obtain ⟨hstate1, hframe1⟩ := process_address_miss disk initial_state (P * 256 + k) hmiss1
  have hpt0 : ({ initial_state with num_addresses_processed :=
      initial_state.num_addresses_processed + 1 } : SimState).page_table
        (get_page_number (P * 256 + k)) = -1 := rfl
  rw [check_page_table_eq_miss disk _ _ hpt0] at hstate1 hframe1
  have hfound : search_TLB
      (update_TLB
        (faulted disk
          { initial_state with num_addresses_processed :=
              initial_state.num_addresses_processed + 1 }
          (get_page_number (P * 256 + k)))
        (get_page_number (P * 256 + k))
        ({ initial_state with num_addresses_processed :=
            initial_state.num_addresses_processed + 1 } : SimState).highest_open_frame)
      (get_page_number (P * 256 + k)) =
      (({ initial_state with num_addresses_processed :=
          initial_state.num_addresses_processed + 1 } : SimState).highest_open_frame : Int) :=
    update_TLB_search_found _ _ _ initial_Inv.filled_le (fun _ => rfl) initial_Inv.head_lt
      (fun slot hs => absurd hs (initial_not_held slot))
  have h0 : ({ initial_state with num_addresses_processed :=
      initial_state.num_addresses_processed + 1 } : SimState).highest_open_frame = 0 := rfl
  rw [hfound, h0] at hframe1
  have hfaults : (process_address disk initial_state (P * 256 + k)).state.num_Pg_faults = 1 := by
    rw [process_address_faults, if_pos ⟨rfl, rfl⟩]
    rfl
  have hvalue1 : (process_address disk initial_state (P * 256 + k)).value =
      disk (P * 256 + k) := by
    rw [process_address_value, hframe1, hstate1, update_TLB_mem, hoff, faulted_mem,
      if_pos ⟨rfl, hk⟩, hpage]
    rfl
  have hsearch2 : search_TLB (process_address disk initial_state (P * 256 + k)).state
      (get_page_number (P * 256 + k)) = ((0 : Nat) : Int) := by
    rw [hstate1, hfound, h0]
  have hne2 : ¬search_TLB (process_address disk initial_state (P * 256 + k)).state
      (get_page_number (P * 256 + k)) = -1 := by
    rw [hsearch2]
    intro hc
    omega
  obtain ⟨hstate2, hframe2⟩ :=
    process_address_hit disk (process_address disk initial_state (P * 256 + k)).state
      (P * 256 + k) hne2
  rw [hsearch2] at hframe2
  have hhits2 : (process_address disk (process_address disk initial_state (P * 256 + k)).state
      (P * 256 + k)).state.num_TLB_hits =
      (process_address disk initial_state (P * 256 + k)).state.num_TLB_hits + 1 := by
    rw [process_address_hits, if_neg hne2]
  have hphys : (process_address disk (process_address disk initial_state (P * 256 + k)).state
      (P * 256 + k)).physical_address =
      (process_address disk initial_state (P * 256 + k)).physical_address := by
    rw [process_address_physical, process_address_physical, hframe2, hframe1]
  have hv2 : (process_address disk (process_address disk initial_state (P * 256 + k)).state
      (P * 256 + k)).value =
      (process_address disk initial_state (P * 256 + k)).value := by
    rw [process_address_value, process_address_value, hstate2, hframe2, hframe1]
  exact ⟨hvalue1, hfaults, hhits2, hphys, hv2⟩

/-- Witness for C8 at page 1, offset 2, over the all-zero backing store. -/
theorem backing_store_roundtrip_witness :
    (process_address disk0 initial_state (1 * 256 + 2)).value = disk0 (1 * 256 + 2) ∧
      (process_address disk0 initial_state (1 * 256 + 2)).state.num_Pg_faults = 1 ∧
      (process_address disk0 (process_address disk0 initial_state (1 * 256 + 2)).state
          (1 * 256 + 2)).state.num_TLB_hits =
        (process_address disk0 initial_state (1 * 256 + 2)).state.num_TLB_hits + 1 ∧
      (process_address disk0 (process_address disk0 initial_state (1 * 256 + 2)).state
          (1 * 256 + 2)).physical_address =
        (process_address disk0 initial_state (1 * 256 + 2)).physical_address ∧
      (process_address disk0 (process_address disk0 initial_state (1 * 256 + 2)).state
          (1 * 256 + 2)).value =
        (process_address disk0 initial_state (1 * 256 + 2)).value :=
  backing_store_roundtrip disk0 1 2 (by decide) (by decide)

end MemSim
